import Mathlib

/-!
Verification of the caching subsystem of the mcp-consigncloud repository.

The development shallowly embeds `src/cache.ts` (the `BulkCache` and
`CacheManager` classes) and the caching orchestrator in
`src/cache-wrapper.ts` (the `CachingClient` class).

Modelling conventions:
* JavaScript scalar values are modelled by the inductive `Val`
  (strings, integer numbers, booleans).
* A JavaScript object used as a filter-parameter record
  (`Record<string, any>`) is modelled by an association list
  `List (String × Val)`; property lookup (`obj[key]`, returning
  `undefined` for an absent key) is `lookupRec`, and property
  assignment (`obj[key] = v`, updating in place or appending a new key
  in insertion order) is `mapSet`.  A JavaScript `Map` is modelled the
  same way (its iteration order is insertion order), and a JavaScript
  `Set` by a duplicate-free list with `setAdd`.
* Wall-clock time (`new Date()`, stored as milliseconds) is a `Nat`
  passed explicitly to every operation that reads the clock.
* Entities (`T extends { id: string }`) are modelled by the concrete
  structure `Entity` carrying an id and a record of fields.
* `console.log`/`console.warn` output is not modelled, except for the
  size-threshold warnings of `checkThreshold`, which are returned as a
  value because the specification constrains them.
* Exceptions thrown by the upstream client are modelled with `Except`;
  stateful methods return their state at the point of the throw.
-/

namespace ConsignCache

/-- A JavaScript scalar value appearing in filter parameters. -/
inductive Val : Type where
  | str (s : String) : Val
  | num (n : Int) : Val
  | boolean (b : Bool) : Val
deriving DecidableEq, Repr

/-- A JavaScript object holding filter parameters
(`Record<string, any>` in the source), as an association list in
property-insertion order. -/
abbrev QRecord := List (String × Val)

/-- Property lookup on a JavaScript object: the first binding of the
key, `none` modelling `undefined`. -/
def lookupRec {β : Type _} : List (String × β) → String → Option β
  | [], _ => none
  | (k', v) :: rest, k => if k' = k then some v else lookupRec rest k

/-- Property assignment / `Map.set`: an existing key is updated in
place (keeping its position), a new key is appended. -/
def mapSet {β : Type _} (m : List (String × β)) (k : String) (v : β) :
    List (String × β) :=
  if (lookupRec m k).isSome then
    m.map (fun kv => if kv.1 = k then (k, v) else kv)
  else
    m ++ [(k, v)]

/-- `Set.add`: append the element unless already present. -/
def setAdd {α : Type _} [DecidableEq α] (s : List α) (x : α) : List α :=
  if x ∈ s then s else s ++ [x]

/-- A cached entity (`T extends { id: string }` in the source): an id
plus its remaining fields. -/
structure Entity : Type where
  id : String
  fields : List (String × Val)
deriving DecidableEq, Repr

/-- `QueryMetadata` from cache.ts: the filter parameters of one query
together with the fetch timestamp. -/
structure QueryMetadata : Type where
  params : QRecord
  fetchedAt : Nat
deriving DecidableEq, Repr

/-- `CacheEntry<T>` from cache.ts. -/
structure CacheEntry : Type where
  id : String
  data : Entity
  queries : List QueryMetadata
deriving DecidableEq, Repr

/-- A serialized query key.  `serializeQuery` JSON-stringifies an
object whose keys are sorted and deduplicated; since `JSON.stringify`
is injective on such normalized objects, the key is modelled by the
normalized association list itself. -/
abbrev Fingerprint := List (String × Val)

/-- `BulkCacheData<T>` from cache.ts. -/
structure BulkCacheData : Type where
  entries : List (String × CacheEntry)
  lastUpdated : Nat
  expiresAt : Nat
  uniqueQueries : List Fingerprint
deriving DecidableEq, Repr

/-- The warnings emitted by `BulkCache.checkThreshold`
(`console.warn` classes, escalating). -/
inductive Warning : Type where
  | critical : Warning
  | sizeWarning : Warning
  | thresholdNote : Warning
deriving DecidableEq, Repr

/-- The state of one `BulkCache<T>` instance: its constructor
parameters together with `data`, `hits` and `misses`. -/
structure BulkCache : Type where
  type : String
  ttlSeconds : Nat
  warningThreshold : Nat
  data : Option BulkCacheData
  hits : Nat
  misses : Nat
deriving DecidableEq, Repr

/-- Is this key a pagination-only key (`limit` or `cursor`)? -/
def pagKey (k : String) : Bool := k = "limit" || k = "cursor"

/-- Lexicographic comparison of character sequences by code unit, the
default-comparator order used by JavaScript `Array.prototype.sort()`
on strings. -/
def charListLe : List Char → List Char → Bool
  | [], _ => true
  | _ :: _, [] => false
  | a :: as, b :: bs =>
    if a.toNat < b.toNat then true
    else if b.toNat < a.toNat then false
    else charListLe as bs

/-- The string order used by `Object.keys(params).sort()`. -/
def strLe (a b : String) : Bool := charListLe a.toList b.toList

/-- `strLe` as a binary relation, for the sorting lemmas. -/
def StrLe (a b : String) : Prop := strLe a b = true

instance : DecidableRel StrLe := fun a b => instDecidableEqBool (strLe a b) true

/-- `BulkCache.serializeQuery`: sort the object's keys, drop `limit`
and `cursor`, and read each remaining key's value; the stringified
result is represented by the normalized association list. -/
def serializeQuery (params : QRecord) : Fingerprint :=
  let sortedKeys := List.insertionSort StrLe (params.map Prod.fst).dedup
  sortedKeys.filterMap (fun k =>
    if pagKey k then none else (lookupRec params k).map (fun v => (k, v)))

/-- The body of the `entry.queries.some(...)` callback in
`BulkCache.entryMatchesQuery`: the stored parameters `qparams` are
compatible with the incoming `queryParams` when no non-pagination key
of `queryParams` is bound in `qparams` to a different value. -/
def paramsCompatible (qparams : QRecord) (queryParams : QRecord) : Bool :=
  queryParams.all fun kv =>
    if pagKey kv.1 then true
    else
      match lookupRec qparams kv.1 with
      | none => true
      | some v => v = kv.2

/-- `BulkCache.entryMatchesQuery`. -/
def entryMatchesQuery (entry : CacheEntry) (queryParams : QRecord) : Bool :=
  entry.queries.any fun q => paramsCompatible q.params queryParams

/-- `BulkCache.isValid`: the cache has data and the clock has not
reached `expiresAt`. -/
def BulkCache.isValid (c : BulkCache) (now : Nat) : Bool :=
  match c.data with
  | none => false
  | some d => decide (now < d.expiresAt)

/-- `BulkCache.get` (the `isValid` test is inlined so that the valid
branch can name the table `d`). -/
def BulkCache.get (c : BulkCache) (queryParams : QRecord) (now : Nat) :
    Option (List Entity) × BulkCache :=
  match c.data with
  | none => (none, { c with misses := c.misses + 1 })
  | some d =>
    if now < d.expiresAt then
      let queryKey := serializeQuery queryParams
      if queryKey ∈ d.uniqueQueries then
        let results := ((d.entries.map Prod.snd).filter
          (fun e => entryMatchesQuery e queryParams)).map (fun e => e.data)
        (some results, { c with hits := c.hits + 1 })
      else
        (none, { c with misses := c.misses + 1 })
    else
      (none, { c with misses := c.misses + 1 })

/-- The per-item body of the insertion loop of `BulkCache.set`. -/
def insertItem (entries : List (String × CacheEntry))
    (qm : QueryMetadata) (item : Entity) : List (String × CacheEntry) :=
  match lookupRec entries item.id with
  | some existing =>
    mapSet entries item.id
      { existing with data := item, queries := existing.queries ++ [qm] }
  | none =>
    entries ++ [(item.id, { id := item.id, data := item, queries := [qm] })]

/-- `BulkCache.checkThreshold`: at most one warning, the highest tier
whose bound the count meets. -/
def checkThreshold (warningThreshold : Nat) (count : Nat) : Option Warning :=
  if 100000 ≤ count then some .critical
  else if 50000 ≤ count then some .sizeWarning
  else if warningThreshold ≤ count then some .thresholdNote
  else none

/-- `BulkCache.set`: create or merge the table, upsert every item, and
report the threshold warning. -/
def BulkCache.set (c : BulkCache) (queryParams : QRecord)
    (items : List Entity) (now : Nat) : BulkCache × Option Warning :=
  let expiresAt := now + c.ttlSeconds * 1000
  let queryKey := serializeQuery queryParams
  let d0 : BulkCacheData :=
    match c.data with
    | some d =>
      if now < d.expiresAt then
        { d with uniqueQueries := setAdd d.uniqueQueries queryKey,
                 lastUpdated := now }
      else
        { entries := [], lastUpdated := now, expiresAt := expiresAt,
          uniqueQueries := [queryKey] }
    | none =>
      { entries := [], lastUpdated := now, expiresAt := expiresAt,
        uniqueQueries := [queryKey] }
  let qm : QueryMetadata := { params := queryParams, fetchedAt := now }
  let entries := items.foldl (fun es it => insertItem es qm it) d0.entries
  ({ c with data := some { d0 with entries := entries } },
   checkThreshold c.warningThreshold entries.length)

/-- `BulkCache.getById`.  On an invalid table the source returns early
without touching the counters. -/
def BulkCache.getById (c : BulkCache) (id : String) (now : Nat) :
    Option Entity × BulkCache :=
  match c.data with
  | none => (none, c)
  | some d =>
    if now < d.expiresAt then
      match lookupRec d.entries id with
      | some entry => (some entry.data, { c with hits := c.hits + 1 })
      | none => (none, { c with misses := c.misses + 1 })
    else
      (none, c)

/-- `BulkCache.setById`.  The `ttlSeconds || this.ttlSeconds` fallback
treats an absent or zero override as falsy. -/
def BulkCache.setById (c : BulkCache) (id : String) (item : Entity)
    (ttlOverride : Option Nat) (now : Nat) : BulkCache :=
  let effTtl :=
    match ttlOverride with
    | some t => if t = 0 then c.ttlSeconds else t
    | none => c.ttlSeconds
  let expiresAt := now + effTtl * 1000
  let d0 : BulkCacheData :=
    match c.data with
    | some d =>
      if now < d.expiresAt then d
      else
        { entries := [], lastUpdated := now, expiresAt := expiresAt,
          uniqueQueries := [] }
    | none =>
      { entries := [], lastUpdated := now, expiresAt := expiresAt,
        uniqueQueries := [] }
  let newEntry : CacheEntry :=
    { id := id, data := item,
      queries := [{ params := [("id", Val.str id)], fetchedAt := now }] }
  { c with data := some ({ d0 with entries := mapSet d0.entries id newEntry }) }

/-- `BulkCache.invalidate`: discard the table, keeping the counters. -/
def BulkCache.invalidate (c : BulkCache) : BulkCache :=
  { c with data := none }

/-- `CacheConfig` after the constructor has merged the defaults. -/
structure CacheConfig : Type where
  enabled : Bool
  warningThreshold : Nat
  ttl : List (String × Nat)
deriving DecidableEq, Repr

/-- The state of the `CacheManager`: the lazily created per-type
caches and the configuration. -/
structure CacheManager : Type where
  caches : List (String × BulkCache)
  config : CacheConfig
deriving DecidableEq, Repr

/-- `this.config.ttl.items` — present in every merged configuration;
`getD 0` is never exercised by a configuration built by the
constructor. -/
def ttlItems (cfg : CacheConfig) : Nat := (lookupRec cfg.ttl "items").getD 0

/-- `CacheManager.getCache`: fetch the cache for a type, creating it
with the configured TTL (`this.config.ttl[type] || this.config.ttl.items`,
an absent or zero entry being falsy) on first use. -/
def CacheManager.getCache (m : CacheManager) (type : String) :
    BulkCache × CacheManager :=
  match lookupRec m.caches type with
  | some c => (c, m)
  | none =>
    let ttl :=
      match lookupRec m.config.ttl type with
      | some t => if t = 0 then ttlItems m.config else t
      | none => ttlItems m.config
    let c : BulkCache :=
      { type := type, ttlSeconds := ttl,
        warningThreshold := m.config.warningThreshold,
        data := none, hits := 0, misses := 0 }
    (c, { m with caches := m.caches ++ [(type, c)] })

/-- Store back the (mutated-in-place in the source) cache object for a
type. -/
def CacheManager.updateCache (m : CacheManager) (type : String)
    (c : BulkCache) : CacheManager :=
  { m with caches := mapSet m.caches type c }

/-- `CacheManager.get`. -/
def CacheManager.get (m : CacheManager) (type : String)
    (queryParams : QRecord) (now : Nat) :
    Option (List Entity) × CacheManager :=
  if m.config.enabled = false then (none, m)
  else
    let (c, m1) := m.getCache type
    let (r, c1) := c.get queryParams now
    (r, m1.updateCache type c1)

/-- `CacheManager.set` (the threshold warning goes to the console and
is dropped here). -/
def CacheManager.set (m : CacheManager) (type : String)
    (queryParams : QRecord) (items : List Entity) (now : Nat) : CacheManager :=
  if m.config.enabled = false then m
  else
    let (c, m1) := m.getCache type
    m1.updateCache type (c.set queryParams items now).1

/-- `CacheManager.getById`. -/
def CacheManager.getById (m : CacheManager) (type : String) (id : String)
    (now : Nat) : Option Entity × CacheManager :=
  if m.config.enabled = false then (none, m)
  else
    let (c, m1) := m.getCache type
    let (r, c1) := c.getById id now
    (r, m1.updateCache type c1)

/-- `CacheManager.setById`: looks up the `"<type>:id"` TTL (possibly
absent) and delegates. -/
def CacheManager.setById (m : CacheManager) (type : String) (id : String)
    (item : Entity) (now : Nat) : CacheManager :=
  if m.config.enabled = false then m
  else
    let ttl := lookupRec m.config.ttl (type ++ ":id")
    let (c, m1) := m.getCache type
    m1.updateCache type (c.setById id item ttl now)

/-- `type.endsWith(':*')`: the last two characters are `:` and `*`. -/
def isWildcard (ty : String) : Bool := ty.toList.reverse.take 2 = ['*', ':']

/-- `type.slice(0, -2)`: all but the last two characters. -/
def wildcardBase (ty : String) : String := ⟨ty.toList.dropLast.dropLast⟩

/-- The per-type body of `CacheManager.invalidate`:
`this.getCache(type).invalidate()`. -/
def CacheManager.invalidateOne (m : CacheManager) (type : String) :
    CacheManager :=
  let (c, m1) := m.getCache type
  m1.updateCache type c.invalidate

/-- `CacheManager.invalidate` (a single string argument is the
singleton list). -/
def CacheManager.invalidate (m : CacheManager) (types : List String) :
    CacheManager :=
  types.foldl
    (fun m ty =>
      if isWildcard ty then m.invalidateOne (wildcardBase ty)
      else m.invalidateOne ty)
    m

/-- `CacheManager.clearAll`: invalidate every known cache. -/
def CacheManager.clearAll (m : CacheManager) : CacheManager :=
  { m with caches := m.caches.map (fun kv => (kv.1, kv.2.invalidate)) }

/-- The bulk table currently stored for a type (the observable cache
contents; counters and lazily created empty caches aside). -/
def tableOf (m : CacheManager) (type : String) : Option BulkCacheData :=
  (lookupRec m.caches type).bind (fun c => c.data)

/-! ### The caching orchestrator (`CachingClient` in cache-wrapper.ts) -/

/-- One upstream response to a paginated list request: either a thrown
error, or a page of data with the next cursor. -/
abbrev PageResult := Except String (List Entity × Option String)

/-- Object spread `{ limit: 100, ...params }`: start from the base
object and assign every binding of `params` over it. -/
def spreadRec (base : QRecord) (params : QRecord) : QRecord :=
  params.foldl (fun acc kv => mapSet acc kv.1 kv.2) base

/-- The `do/while` pagination loop of `fetchListWithCache`.  The i-th
element of `responses` is what the upstream returns to the i-th
request; the issued requests are collected as a trace.  The JavaScript
`while (cursor)` condition is falsy for both `null` and the empty
string.  An exhausted response list models an upstream that never
answers the pending request and is reported as an error. -/
def drainPages : List PageResult → QRecord → List Entity → List QRecord →
    List QRecord × Except String (List Entity)
  | [], qp, _, reqs => (reqs ++ [qp], .error "unanswered request")
  | r :: rest, qp, acc, reqs =>
    match r with
    | .error e => (reqs ++ [qp], .error e)
    | .ok (data, next) =>
      match next with
      | none => (reqs ++ [qp], .ok (acc ++ data))
      | some cur =>
        if cur = "" then (reqs ++ [qp], .ok (acc ++ data))
        else
          drainPages rest (mapSet qp "cursor" (Val.str cur)) (acc ++ data)
            (reqs ++ [qp])

/-- The outcome of `fetchListWithCache`: the returned or thrown value,
the cache state afterwards, and the trace of upstream requests. -/
structure FetchOutcome : Type where
  result : Except String (List Entity)
  manager : CacheManager
  requests : List QRecord
deriving Repr

/-- `CachingClient.fetchListWithCache`: try the cache; on a miss drain
all pages starting from `{ limit: 100, ...params }` and, if no page
threw, store the concatenation under the original params.  `nowGet`
and `nowSet` are the clock readings at the cache probe and at the
store (the pagination loop awaits in between). -/
def fetchListWithCache (m : CacheManager) (type : String) (params : QRecord)
    (responses : List PageResult) (nowGet : Nat) (nowSet : Nat) :
    FetchOutcome :=
  let (cached, m1) := m.get type params nowGet
  match cached with
  | some items => { result := .ok items, manager := m1, requests := [] }
  | none =>
    let queryParams := spreadRec [("limit", Val.num 100)] params
    let (reqs, result) := drainPages responses queryParams [] []
    match result with
    | .error e => { result := .error e, manager := m1, requests := reqs }
    | .ok allItems =>
      { result := .ok allItems, manager := m1.set type params allItems nowSet,
        requests := reqs }

/-- The static `INVALIDATION_MAP` of cache-wrapper.ts. -/
def INVALIDATION_MAP : List (String × List String) :=
  [("create_item", ["items", "item:*"]),
   ("update_item", ["items", "item:*"]),
   ("delete_item", ["items", "item:*"]),
   ("restore_item", ["items", "item:*"]),
   ("bulk_edit_items", ["items", "item:*"]),
   ("update_item_statuses", ["items", "item:*"]),
   ("create_sale", ["sales", "sale:*", "items"]),
   ("update_sale", ["sales", "sale:*", "items"]),
   ("void_sale", ["sales", "sale:*", "items"]),
   ("refund_sale", ["sales", "sale:*", "items"]),
   ("create_account", ["accounts", "account:*"]),
   ("update_account", ["accounts", "account:*"]),
   ("delete_account", ["accounts", "account:*"]),
   ("create_category", ["categories", "category:*"]),
   ("update_category", ["categories", "category:*"]),
   ("delete_category", ["categories", "category:*"]),
   ("create_location", ["locations", "location:*"]),
   ("update_location", ["locations", "location:*"]),
   ("delete_location", ["locations", "location:*"]),
   ("create_batch", ["batches", "batch:*"]),
   ("update_batch", ["batches", "batch:*"]),
   ("update_batch_status", ["batches", "batch:*", "items"])]

/-- `CachingClient.invalidateCache`: look the operation up in the
static map; unmapped operations invalidate nothing. -/
def invalidateByOp (m : CacheManager) (op : String) : CacheManager :=
  match lookupRec INVALIDATION_MAP op with
  | some types => m.invalidate types
  | none => m

/-- The common shape of every mutation method of `CachingClient`
(`createItem`, `updateItem`, `voidSale`, ...): await the upstream
mutation, then invalidate by operation name.  A thrown upstream error
propagates and leaves the manager exactly as it was at the point of
the throw. -/
def mutate (m : CacheManager) (op : String)
    (upstream : Except String Entity) :
    Except String Entity × CacheManager :=
  match upstream with
  | .error e => (.error e, m)
  | .ok item => (.ok item, invalidateByOp m op)

/-- `CachingClient.createItem`. -/
def createItem (m : CacheManager) (upstream : Except String Entity) :
    Except String Entity × CacheManager :=
  mutate m "create_item" upstream

/-! ### Order properties of the key comparison -/

theorem charListLe_total : ∀ as bs : List Char,
    charListLe as bs = true ∨ charListLe bs as = true
  | [], _ => Or.inl rfl
  | _ :: _, [] => Or.inr rfl
  | a :: as, b :: bs => by
    rcases Nat.lt_trichotomy a.toNat b.toNat with h | h | h
    · left; simp [charListLe, h]
    · rcases charListLe_total as bs with ih | ih
      · left; simp [charListLe, h, ih]
      · right; simp [charListLe, h.symm, ih]
    · right; simp [charListLe, h]

theorem charListLe_trans : ∀ as bs cs : List Char,
    charListLe as bs = true → charListLe bs cs = true →
    charListLe as cs = true
  | [], _, _, _, _ => rfl
  | _ :: _, [], _, h1, _ => by simp [charListLe] at h1
  | _ :: _, _ :: _, [], _, h2 => by simp [charListLe] at h2
  | a :: as, b :: bs, c :: cs, h1, h2 => by
    simp only [charListLe] at h1 h2 ⊢
    split at h1
    case isTrue hab =>
      split at h2
      case isTrue hbc => simp [Nat.lt_trans hab hbc]
      case isFalse hbc =>
        split at h2
        case isTrue hcb => exact absurd h2 (by simp)
        case isFalse hcb => simp [show a.toNat < c.toNat by omega]
    case isFalse hab =>
      split at h1
      case isTrue hba => exact absurd h1 (by simp)
      case isFalse hba =>
        split at h2
        case isTrue hbc => simp [show a.toNat < c.toNat by omega]
        case isFalse hbc =>
          split at h2
          case isTrue hcb => exact absurd h2 (by simp)
          case isFalse hcb =>
            rw [if_neg (show ¬a.toNat < c.toNat by omega),
              if_neg (show ¬c.toNat < a.toNat by omega)]
            exact charListLe_trans as bs cs h1 h2

theorem charListLe_antisymm : ∀ as bs : List Char,
    charListLe as bs = true → charListLe bs as = true → as = bs
  | [], [], _, _ => rfl
  | [], _ :: _, _, h2 => by simp [charListLe] at h2
  | _ :: _, [], h1, _ => by simp [charListLe] at h1
  | a :: as, b :: bs, h1, h2 => by
    simp only [charListLe] at h1 h2
    by_cases hab : a.toNat < b.toNat <;> by_cases hba : b.toNat < a.toNat <;>
      simp [hab, hba] at h1 h2
    · omega
    · have hv : a.toNat = b.toNat := by omega
      have ha : a = b := Char.ext (UInt32.ext hv)
      rw [ha, charListLe_antisymm as bs h1 h2]

instance : IsTotal String StrLe :=
  ⟨fun a b => charListLe_total a.toList b.toList⟩

instance : IsTrans String StrLe :=
  ⟨fun a b c => charListLe_trans a.toList b.toList c.toList⟩

instance : IsAntisymm String StrLe :=
  ⟨fun a b h1 h2 => by
    have h := charListLe_antisymm a.toList b.toList h1 h2
    cases a; cases b; exact congrArg String.mk h⟩

/-! ### Lookup lemmas -/

theorem lookupRec_eq_none_iff {β : Type _} :
    ∀ (l : List (String × β)) (k : String),
      lookupRec l k = none ↔ k ∉ l.map Prod.fst
  | [], k => by simp [lookupRec]
  | (k', v) :: rest, k => by
    by_cases h : k' = k
    · subst h; simp [lookupRec]
    · simp [lookupRec, h, lookupRec_eq_none_iff rest k, Ne.symm h]

theorem lookupRec_isSome_iff {β : Type _} {l : List (String × β)}
    {k : String} : (lookupRec l k).isSome = true ↔ k ∈ l.map Prod.fst := by
  rw [Option.isSome_iff_ne_none]
  exact not_iff_comm.mp (lookupRec_eq_none_iff l k).symm

theorem lookupRec_mem {β : Type _} :
    ∀ {l : List (String × β)} {k : String} {v : β},
      lookupRec l k = some v → (k, v) ∈ l
  | [], k, v, h => by simp [lookupRec] at h
  | (k', v') :: rest, k, v, h => by
    simp only [lookupRec] at h
    split at h
    case isTrue heq =>
      subst heq
      injection h with h
      subst h
      exact List.mem_cons_self _ _
    case isFalse hne =>
      exact List.mem_cons_of_mem _ (lookupRec_mem h)

theorem mem_lookupRec {β : Type _} :
    ∀ {l : List (String × β)} {k : String} {v : β},
      (l.map Prod.fst).Nodup → (k, v) ∈ l → lookupRec l k = some v
  | [], k, v, _, hm => by simp at hm
  | (k', v') :: rest, k, v, hn, hm => by
    rcases List.mem_cons.mp hm with h | h
    · cases h; simp [lookupRec]
    · have hk : k' ≠ k := by
        rintro rfl
        exact (List.nodup_cons.mp (by simpa using hn)).1
          (List.mem_map_of_mem Prod.fst h)
      simp only [lookupRec, if_neg hk]
      exact mem_lookupRec (List.nodup_cons.mp (by simpa using hn)).2 h

/-! ### Fingerprint extensionality -/

theorem filterMap_eq_filterMap_filter {α β : Type _} (f : α → Option β)
    (p : α → Bool) (hf : ∀ a, p a = false → f a = none) :
    ∀ l : List α, l.filterMap f = (l.filter p).filterMap f
  | [] => rfl
  | a :: l => by
    by_cases hp : p a
    · simp [List.filterMap_cons, List.filter_cons, hp,
        filterMap_eq_filterMap_filter f p hf l]
    · simp only [Bool.not_eq_true] at hp
      simp [List.filterMap_cons, List.filter_cons, hp, hf a hp,
        filterMap_eq_filterMap_filter f p hf l]

/-- The fingerprint depends only on the bindings of the
non-pagination keys. -/
theorem serializeQuery_ext {p₁ p₂ : QRecord}
    (h : ∀ k, pagKey k = false → lookupRec p₁ k = lookupRec p₂ k) :
    serializeQuery p₁ = serializeQuery p₂ := by
  unfold serializeQuery
  have hfun : (fun k => if pagKey k then none
        else (lookupRec p₂ k).map (fun v => (k, v))) =
      (fun k => if pagKey k then none
        else (lookupRec p₁ k).map (fun v => (k, v))) := by
    funext k
    by_cases hp : pagKey k
    · simp [hp]
    · simp only [Bool.not_eq_true] at hp
      simp [hp, h k hp]
  rw [hfun]
  have hnone : ∀ k, (!pagKey k) = false →
      (if pagKey k then none
        else (lookupRec p₁ k).map (fun v => (k, v))) = none := by
    intro k hk
    simp only [Bool.not_eq_false'] at hk
    simp [hk]
  rw [filterMap_eq_filterMap_filter _ (fun k => !pagKey k) hnone
      (List.insertionSort StrLe (p₁.map Prod.fst).dedup),
    filterMap_eq_filterMap_filter _ (fun k => !pagKey k) hnone
      (List.insertionSort StrLe (p₂.map Prod.fst).dedup)]
  congr 1
  have hnd : ∀ p : QRecord,
      (List.insertionSort StrLe (p.map Prod.fst).dedup).Nodup := fun p =>
    ((List.perm_insertionSort StrLe _).nodup_iff).mpr (List.nodup_dedup _)
  have hsorted : ∀ p : QRecord,
      (((List.insertionSort StrLe (p.map Prod.fst).dedup)).filter
        (fun k => !pagKey k)).Sorted StrLe := fun p =>
    (List.sorted_insertionSort StrLe _).filter _
  apply List.eq_of_perm_of_sorted _ (hsorted p₁) (hsorted p₂)
  apply (List.perm_ext_iff_of_nodup ((hnd p₁).filter _) ((hnd p₂).filter _)).mpr
  intro k
  simp only [List.mem_filter, List.mem_insertionSort, List.mem_dedup,
    Bool.not_eq_false']
  constructor
  · rintro ⟨hk, hp⟩
    refine ⟨?_, hp⟩
    rw [← lookupRec_isSome_iff] at hk ⊢
    rwa [← h k (Bool.not_eq_true' _ ▸ hp)]
  · rintro ⟨hk, hp⟩
    refine ⟨?_, hp⟩
    rw [← lookupRec_isSome_iff] at hk ⊢
    rwa [h k (Bool.not_eq_true' _ ▸ hp)]

theorem lookupRec_perm {β : Type _} {p₁ p₂ : List (String × β)}
    (hn : (p₁.map Prod.fst).Nodup) (hp : p₁.Perm p₂) (k : String) :
    lookupRec p₁ k = lookupRec p₂ k := by
  have hn₂ : (p₂.map Prod.fst).Nodup := ((hp.map Prod.fst).nodup_iff).mp hn
  cases h : lookupRec p₁ k with
  | some v =>
    exact (mem_lookupRec hn₂ (hp.subset (lookupRec_mem h))).symm
  | none =>
    symm
    rw [lookupRec_eq_none_iff] at h ⊢
    exact fun hm => h (((hp.map Prod.fst).mem_iff).mpr hm)

/-! ### `mapSet` lemmas -/

theorem lookupRec_append {β : Type _} :
    ∀ (m m' : List (String × β)) (k : String),
      lookupRec (m ++ m') k =
        match lookupRec m k with
        | some v => some v
        | none => lookupRec m' k
  | [], _, _ => rfl
  | (k₁, v₁) :: rest, m', k => by
    by_cases h : k₁ = k
    · simp [lookupRec, h]
    · simp only [List.cons_append, lookupRec, if_neg h]
      exact lookupRec_append rest m' k

theorem lookupRec_cons {β : Type _} (k₁ : String) (v₁ : β)
    (rest : List (String × β)) (k : String) :
    lookupRec ((k₁, v₁) :: rest) k =
      if k₁ = k then some v₁ else lookupRec rest k := rfl

theorem mapUpd_cons {β : Type _} (k : String) (v : β) (k₁ : String) (v₁ : β)
    (rest : List (String × β)) :
    ((k₁, v₁) :: rest).map (fun kv => if kv.1 = k then (k, v) else kv) =
      (if k₁ = k then (k, v) else (k₁, v₁)) ::
        rest.map (fun kv => if kv.1 = k then (k, v) else kv) := rfl

theorem lookupRec_mapUpd {β : Type _} (k : String) (v : β) :
    ∀ m : List (String × β), (lookupRec m k).isSome = true →
      lookupRec (m.map (fun kv => if kv.1 = k then (k, v) else kv)) k = some v
  | [], h => by simp [lookupRec] at h
  | (k₁, v₁) :: rest, h => by
    rw [mapUpd_cons]
    by_cases hk : k₁ = k
    · rw [if_pos hk, lookupRec_cons, if_pos rfl]
    · rw [lookupRec_cons, if_neg hk] at h
      rw [if_neg hk, lookupRec_cons, if_neg hk]
      exact lookupRec_mapUpd k v rest h

theorem lookupRec_mapUpd_ne {β : Type _} (k : String) (v : β) {k' : String}
    (hne : k' ≠ k) :
    ∀ m : List (String × β),
      lookupRec (m.map (fun kv => if kv.1 = k then (k, v) else kv)) k' =
        lookupRec m k'
  | [] => rfl
  | (k₁, v₁) :: rest => by
    rw [mapUpd_cons, lookupRec_cons, lookupRec_cons]
    by_cases hk : k₁ = k
    · rw [if_pos hk, if_neg (show ¬k = k' from fun h => hne h.symm),
        if_neg (show ¬k₁ = k' from fun h => hne (hk.symm.trans h).symm)]
      exact lookupRec_mapUpd_ne k v hne rest
    · rw [if_neg hk]
      show (if k₁ = k' then some v₁
          else lookupRec (rest.map (fun kv => if kv.1 = k then (k, v) else kv)) k') =
        if k₁ = k' then some v₁ else lookupRec rest k'
      rw [lookupRec_mapUpd_ne k v hne rest]

theorem lookupRec_mapSet_self {β : Type _} (m : List (String × β))
    (k : String) (v : β) : lookupRec (mapSet m k v) k = some v := by
  unfold mapSet
  split
  case isTrue h => exact lookupRec_mapUpd k v m h
  case isFalse h =>
    rw [lookupRec_append]
    have : lookupRec m k = none := by
      cases hl : lookupRec m k with
      | none => rfl
      | some w => rw [hl] at h; simp at h
    rw [this]
    simp [lookupRec]

theorem lookupRec_mapSet_ne {β : Type _} (m : List (String × β))
    {k k' : String} (v : β) (hne : k' ≠ k) :
    lookupRec (mapSet m k v) k' = lookupRec m k' := by
  unfold mapSet
  split
  case isTrue h => exact lookupRec_mapUpd_ne k v hne m
  case isFalse h =>
    rw [lookupRec_append]
    cases hl : lookupRec m k' with
    | some w => rfl
    | none =>
      have hkk : ¬k = k' := fun h => hne h.symm
      simp [lookupRec, hkk]

theorem mem_mapSet_self {β : Type _} (m : List (String × β))
    (k : String) (v : β) : (k, v) ∈ mapSet m k v := by
  unfold mapSet
  split
  case isTrue h =>
    obtain ⟨w, hw⟩ := Option.isSome_iff_exists.mp h
    have hm := lookupRec_mem hw
    have := List.mem_map_of_mem (fun kv => if kv.1 = k then (k, v) else kv) hm
    simpa using this
  case isFalse h => simp

theorem pagKey_eq_false_iff {k : String} :
    pagKey k = false ↔ k ≠ "limit" ∧ k ≠ "cursor" := by
  simp [pagKey]

/-! ### Concrete objects used by the example parts of the claims -/

/-- An empty items cache with the default TTL and threshold. -/
def demoCache : BulkCache :=
  ⟨"items", 7200, 10000, none, 0, 0⟩

/-- A sample entity. -/
def entityI1 : Entity := ⟨"i1", []⟩

/-- An empty but valid table expiring at time 5. -/
def demoTable : BulkCacheData := ⟨[], 0, 5, []⟩

/-- A cache holding `demoTable`. -/
def demoCacheValid : BulkCache :=
  ⟨"items", 7200, 10000, some demoTable, 0, 0⟩

/-! ### `insertItem` and fold lemmas -/

theorem lookupRec_insertItem_self (es : List (String × CacheEntry))
    (qm : QueryMetadata) (it : Entity) :
    lookupRec (insertItem es qm it) it.id =
      some (match lookupRec es it.id with
        | some ex => { ex with data := it, queries := ex.queries ++ [qm] }
        | none => { id := it.id, data := it, queries := [qm] }) := by
  unfold insertItem
  cases h : lookupRec es it.id with
  | some ex => exact lookupRec_mapSet_self es it.id _
  | none =>
    rw [lookupRec_append, h, lookupRec_cons, if_pos rfl]

theorem lookupRec_insertItem_ne (es : List (String × CacheEntry))
    (qm : QueryMetadata) (it : Entity) {i : String} (hne : i ≠ it.id) :
    lookupRec (insertItem es qm it) i = lookupRec es i := by
  unfold insertItem
  cases h : lookupRec es it.id with
  | some ex => exact lookupRec_mapSet_ne es _ hne
  | none =>
    rw [lookupRec_append]
    cases hl : lookupRec es i with
    | some w => rfl
    | none =>
      rw [lookupRec_cons, if_neg (show ¬it.id = i from fun hh => hne hh.symm)]
      rfl

theorem insertItem_isSome (es : List (String × CacheEntry))
    (qm : QueryMetadata) (it : Entity) (i : String)
    (h : (lookupRec es i).isSome = true) :
    (lookupRec (insertItem es qm it) i).isSome = true := by
  by_cases hi : i = it.id
  · subst hi; rw [lookupRec_insertItem_self]; rfl
  · rwa [lookupRec_insertItem_ne es qm it hi]

theorem foldl_insertItem_isSome (qm : QueryMetadata) :
    ∀ (items : List Entity) (es : List (String × CacheEntry)) (i : String),
      (lookupRec es i).isSome = true →
      (lookupRec (items.foldl (fun es it => insertItem es qm it) es) i).isSome
        = true
  | [], _, _, h => h
  | it :: items, es, i, h =>
    foldl_insertItem_isSome qm items _ i (insertItem_isSome es qm it i h)

theorem foldl_insertItem_mem (qm : QueryMetadata) :
    ∀ (items : List Entity) (es : List (String × CacheEntry)),
      ∀ it ∈ items,
        (lookupRec (items.foldl (fun es it => insertItem es qm it) es) it.id).isSome
          = true
  | [], _, it, hmem => by simp at hmem
  | it₀ :: items, es, it, hmem => by
    rcases List.mem_cons.mp hmem with h | h
    · subst h
      exact foldl_insertItem_isSome qm items _ it.id
        (by rw [lookupRec_insertItem_self]; rfl)
    · exact foldl_insertItem_mem qm items _ it h

/-- The invariant needed by C3: every entry of the table built by
`set`'s insertion loop comes from the supplied items and carries only
the new query's metadata. -/
def FreshEntries (items : List Entity) (qm : QueryMetadata)
    (es : List (String × CacheEntry)) : Prop :=
  ∀ i e, lookupRec es i = some e →
    e.id = i ∧ e.data ∈ items ∧ ∀ q ∈ e.queries, q = qm

theorem freshEntries_insertItem {items : List Entity} {qm : QueryMetadata}
    {es : List (String × CacheEntry)} (hP : FreshEntries items qm es)
    {it : Entity} (hit : it ∈ items) :
    FreshEntries items qm (insertItem es qm it) := by
  intro i e he
  by_cases hi : i = it.id
  · subst hi
    rw [lookupRec_insertItem_self] at he
    injection he with he
    cases hl : lookupRec es it.id with
    | some ex =>
      rw [hl] at he
      obtain ⟨hid, _, hq⟩ := hP it.id ex hl
      subst he
      exact ⟨hid, hit, by
        intro q hq'
        rcases List.mem_append.mp hq' with h | h
        · exact hq q h
        · simpa using h⟩
    | none =>
      rw [hl] at he
      subst he
      exact ⟨rfl, hit, by intro q hq'; simpa using hq'⟩
  · rw [lookupRec_insertItem_ne es qm it hi] at he
    exact hP i e he

theorem freshEntries_foldl {items : List Entity} {qm : QueryMetadata} :
    ∀ (todo : List Entity) (es : List (String × CacheEntry)),
      (∀ it ∈ todo, it ∈ items) → FreshEntries items qm es →
      FreshEntries items qm
        (todo.foldl (fun es it => insertItem es qm it) es)
  | [], _, _, hP => hP
  | it :: todo, _, hsub, hP =>
    freshEntries_foldl todo _ (fun x hx => hsub x (List.mem_cons_of_mem _ hx))
      (freshEntries_insertItem hP (hsub it (List.mem_cons_self _ _)))

/-! ### Claim theorems -/

/-- C1: a stored Query Record's parameters are compatible with an
incoming filter mapping `p` exactly when every non-pagination key of
`p` is either unbound in the stored parameters or bound to the
identical value; in particular stored `{status:"active"}` is
compatible with incoming `{status:"active", location:"L1"}`, and
stored `{status:"active", location:"L2"}` is not. -/
theorem C1_compatibility_rule :
    (∀ qp p : QRecord,
        paramsCompatible qp p = true ↔
          ∀ k v, (k, v) ∈ p → k ≠ "limit" → k ≠ "cursor" →
            lookupRec qp k = none ∨ lookupRec qp k = some v)
    ∧ paramsCompatible [("status", Val.str "active")]
        [("status", Val.str "active"), ("location", Val.str "L1")] = true
    ∧ paramsCompatible [("status", Val.str "active"), ("location", Val.str "L2")]
        [("status", Val.str "active"), ("location", Val.str "L1")] = false := by
  refine ⟨?_, by decide, by decide⟩
  intro qp p
  simp only [paramsCompatible, List.all_eq_true]
  constructor
  · intro h k v hkv h1 h2
    have hx := h (k, v) hkv
    have hpk : pagKey k = false := pagKey_eq_false_iff.mpr ⟨h1, h2⟩
    rw [if_neg (by simp [hpk])] at hx
    cases hl : lookupRec qp k with
    | none => exact Or.inl rfl
    | some w =>
      rw [hl] at hx
      have : w = v := of_decide_eq_true hx
      exact Or.inr (congrArg some this)
  · intro h kv hkv
    by_cases hpk : pagKey kv.1
    · rw [if_pos hpk]
    · rw [if_neg hpk]
      obtain ⟨h1, h2⟩ :=
        pagKey_eq_false_iff.mp (Bool.not_eq_true _ ▸ hpk)
      rcases h kv.1 kv.2 hkv h1 h2 with hl | hl
      · rw [hl]
      · rw [hl]
        exact decide_eq_true rfl

theorem C1_witness :
    paramsCompatible [("status", Val.str "active")]
      [("status", Val.str "active"), ("location", Val.str "L1")] = true :=
  C1_compatibility_rule.2.1

/-- C4: the Query Fingerprint is order-independent (permuted filter
mappings with duplicate-free keys fingerprint identically) and
pagination-blind (mappings agreeing on all keys other than `limit`
and `cursor` fingerprint identically); concretely `{a:1,b:2}` and
`{b:2,a:1}` fingerprint identically. -/
theorem C4_fingerprint_invariance :
    (∀ p₁ p₂ : QRecord, (p₁.map Prod.fst).Nodup → p₁.Perm p₂ →
        serializeQuery p₁ = serializeQuery p₂)
    ∧ (∀ p₁ p₂ : QRecord,
        (∀ k, k ≠ "limit" → k ≠ "cursor" → lookupRec p₁ k = lookupRec p₂ k) →
        serializeQuery p₁ = serializeQuery p₂)
    ∧ serializeQuery [("a", Val.num 1), ("b", Val.num 2)] =
        serializeQuery [("b", Val.num 2), ("a", Val.num 1)] := by
  have hext : ∀ p₁ p₂ : QRecord,
      (∀ k, k ≠ "limit" → k ≠ "cursor" → lookupRec p₁ k = lookupRec p₂ k) →
      serializeQuery p₁ = serializeQuery p₂ := by
    intro p₁ p₂ h
    apply serializeQuery_ext
    intro k hk
    obtain ⟨h1, h2⟩ := pagKey_eq_false_iff.mp hk
    exact h k h1 h2
  refine ⟨?_, hext, by decide⟩
  intro p₁ p₂ hn hp
  exact hext p₁ p₂ (fun k _ _ => lookupRec_perm hn hp k)

theorem C4_witness :
    serializeQuery [("a", Val.num 1), ("b", Val.num 2)] =
      serializeQuery [("b", Val.num 2), ("a", Val.num 1)] :=
  C4_fingerprint_invariance.1 _ _ (by decide) (by decide)

/-- C5: on a valid table, a query whose fingerprint is not in the
known-fingerprint set misses; concretely a table populated only with
`{status:"active"}` misses for `{status:"sold"}`. -/
theorem C5_unknown_fingerprint_misses :
    (∀ (c : BulkCache) (d : BulkCacheData) (p : QRecord) (now : Nat),
        c.data = some d → now < d.expiresAt →
        serializeQuery p ∉ d.uniqueQueries →
        (c.get p now).1 = none)
    ∧ (((demoCache.set [("status", Val.str "active")] [entityI1] 0).1.get
          [("status", Val.str "sold")] 0).1 = none) := by
  constructor
  · intro c d p now hd hlt hmem
    simp only [BulkCache.get, hd]
    rw [if_pos hlt, if_neg hmem]
  · decide

theorem C5_witness :
    (demoCacheValid.get [("status", Val.str "sold")] 0).1 = none :=
  C5_unknown_fingerprint_misses.1 _ demoTable _ 0 rfl (by decide) (by decide)

/-- C3: expiry is atomic.  Once the clock reaches `expiresAt`, every
`get` misses (whatever the query, known fingerprint or not), and the
next `set` discards the old table wholesale: the new table holds only
the new query's fingerprint and only the newly supplied items, each
carrying only the new query's metadata. -/
theorem C3_expiry_atomic :
    (∀ (c : BulkCache) (d : BulkCacheData) (p : QRecord) (now : Nat),
        c.data = some d → d.expiresAt ≤ now → (c.get p now).1 = none)
    ∧ (∀ (c : BulkCache) (d : BulkCacheData) (p : QRecord)
        (items : List Entity) (now : Nat),
        c.data = some d → d.expiresAt ≤ now →
        ∃ d', ((c.set p items now).1).data = some d'
          ∧ d'.uniqueQueries = [serializeQuery p]
          ∧ d'.lastUpdated = now
          ∧ d'.expiresAt = now + c.ttlSeconds * 1000
          ∧ FreshEntries items ⟨p, now⟩ d'.entries
          ∧ ∀ it ∈ items, (lookupRec d'.entries it.id).isSome = true) := by
  constructor
  · intro c d p now hd hle
    simp only [BulkCache.get, hd]
    rw [if_neg (by omega)]
  · intro c d p items now hd hle
    simp only [BulkCache.set, hd]
    rw [if_neg (by omega)]
    refine ⟨_, rfl, rfl, rfl, rfl, ?_, ?_⟩
    · exact freshEntries_foldl items [] (fun _ h => h)
        (fun i e he => by simp [lookupRec] at he)
    · exact fun it hit => foldl_insertItem_mem _ items [] it hit

theorem C3_witness :
    (demoCacheValid.get [] 5).1 = none :=
  C3_expiry_atomic.1 demoCacheValid demoTable [] 5 rfl (by decide)

/-- On a valid table, `set` merges: the fingerprint is added, the
items are upserted, `lastUpdated` is bumped and `expiresAt` is kept. -/
theorem BulkCache.set_data_valid (c : BulkCache) (d : BulkCacheData)
    (p : QRecord) (items : List Entity) (now : Nat)
    (hd : c.data = some d) (h : now < d.expiresAt) :
    (c.set p items now).1.data =
      some ⟨items.foldl (fun es it => insertItem es ⟨p, now⟩ it) d.entries,
        now, d.expiresAt, setAdd d.uniqueQueries (serializeQuery p)⟩ := by
  simp only [BulkCache.set, hd]
  rw [if_pos h]

/-- C6: payloads are last-write-wins with append-only query history:
setting an item under query A and then an item with the same id under
query B leaves the entry's payload equal to B's item, its Query
Record list ending with A's and B's filter mappings in fetch order. -/
theorem C6_last_write_wins :
    ∀ (c : BulkCache) (d : BulkCacheData) (p₁ p₂ : QRecord) (a b : Entity)
      (t₁ t₂ : Nat),
      c.data = some d → t₁ < d.expiresAt → t₂ < d.expiresAt → a.id = b.id →
      ∃ (d₂ : BulkCacheData) (e : CacheEntry) (qs : List QueryMetadata),
        (((c.set p₁ [a] t₁).1.set p₂ [b] t₂).1).data = some d₂
        ∧ lookupRec d₂.entries a.id = some e
        ∧ e.data = b
        ∧ e.queries = qs ++ [⟨p₁, t₁⟩, ⟨p₂, t₂⟩] := by
  intro c d p₁ p₂ a b t₁ t₂ hd h₁ h₂ hab
  have hc₁ : (c.set p₁ [a] t₁).1.data =
      some ⟨insertItem d.entries ⟨p₁, t₁⟩ a, t₁, d.expiresAt,
        setAdd d.uniqueQueries (serializeQuery p₁)⟩ :=
    BulkCache.set_data_valid c d p₁ [a] t₁ hd h₁
  have hc₂ : (((c.set p₁ [a] t₁).1.set p₂ [b] t₂).1).data =
      some ⟨insertItem (insertItem d.entries ⟨p₁, t₁⟩ a) ⟨p₂, t₂⟩ b, t₂,
        d.expiresAt,
        setAdd (setAdd d.uniqueQueries (serializeQuery p₁)) (serializeQuery p₂)⟩ :=
    BulkCache.set_data_valid _ _ p₂ [b] t₂ hc₁ h₂
  have hE₁ : lookupRec (insertItem d.entries ⟨p₁, t₁⟩ a) b.id =
      some (match lookupRec d.entries a.id with
        | some ex => { ex with data := a, queries := ex.queries ++ [⟨p₁, t₁⟩] }
        | none => { id := a.id, data := a, queries := [⟨p₁, t₁⟩] }) := by
    rw [← hab]
    exact lookupRec_insertItem_self _ _ _
  have hE₂ : lookupRec
        (insertItem (insertItem d.entries ⟨p₁, t₁⟩ a) ⟨p₂, t₂⟩ b) a.id =
      some (match lookupRec (insertItem d.entries ⟨p₁, t₁⟩ a) b.id with
        | some ex => { ex with data := b, queries := ex.queries ++ [⟨p₂, t₂⟩] }
        | none => { id := b.id, data := b, queries := [⟨p₂, t₂⟩] }) := by
    rw [hab]
    exact lookupRec_insertItem_self _ _ _
  rw [hE₁] at hE₂
  cases hl : lookupRec d.entries a.id with
  | some ex =>
    rw [hl] at hE₂
    refine ⟨_, _, ex.queries, hc₂, hE₂, rfl, ?_⟩
    show (ex.queries ++ [⟨p₁, t₁⟩]) ++ [⟨p₂, t₂⟩] =
      ex.queries ++ [⟨p₁, t₁⟩, ⟨p₂, t₂⟩]
    rw [List.append_assoc]
    rfl
  | none =>
    rw [hl] at hE₂
    exact ⟨_, _, [], hc₂, hE₂, rfl, rfl⟩

/-- Sample entities for the C6 witness: same id, different fields. -/
def entityA : Entity := ⟨"i1", [("f", Val.num 1)]⟩

/-- Second version of the same entity. -/
def entityB : Entity := ⟨"i1", [("f", Val.num 2)]⟩

theorem C6_witness :
    ∃ (d₂ : BulkCacheData) (e : CacheEntry) (qs : List QueryMetadata),
      (((demoCacheValid.set [("q", Val.num 1)] [entityA] 0).1.set
          [("r", Val.num 2)] [entityB] 1).1).data = some d₂
      ∧ lookupRec d₂.entries entityA.id = some e
      ∧ e.data = entityB
      ∧ e.queries = qs ++ [⟨[("q", Val.num 1)], 0⟩, ⟨[("r", Val.num 2)], 1⟩] :=
  C6_last_write_wins demoCacheValid demoTable _ _ entityA entityB 0 1
    rfl (by decide) (by decide) rfl

/-- C9: size warnings are per-`set`-call (at most one, computed once
from the post-insertion entry count, the highest crossed tier wins)
and purely informational: the resulting table does not depend on the
threshold and every supplied item is present after the call. -/
theorem C9_threshold_warnings :
    (∀ (c : BulkCache) (p : QRecord) (items : List Entity) (now : Nat),
        (c.set p items now).2.toList.length ≤ 1
        ∧ (c.set p items now).2 =
            checkThreshold c.warningThreshold
              (match (c.set p items now).1.data with
                | some d => d.entries.length
                | none => 0))
    ∧ (∀ w n : Nat,
        (100000 ≤ n → checkThreshold w n = some Warning.critical)
        ∧ (50000 ≤ n → n < 100000 → checkThreshold w n = some Warning.sizeWarning)
        ∧ (w ≤ n → n < 50000 → checkThreshold w n = some Warning.thresholdNote)
        ∧ (n < w → n < 50000 → checkThreshold w n = none))
    ∧ (∀ (c : BulkCache) (w : Nat) (p : QRecord) (items : List Entity)
        (now : Nat),
        ({ c with warningThreshold := w }.set p items now).1.data =
          (c.set p items now).1.data
        ∧ ∀ it ∈ items, ∃ d',
            (c.set p items now).1.data = some d'
            ∧ (lookupRec d'.entries it.id).isSome = true) := by
  refine ⟨?_, ?_, ?_⟩
  · intro c p items now
    refine ⟨?_, rfl⟩
    cases (c.set p items now).2 <;> simp
  · intro w n
    refine ⟨fun h1 => ?_, fun h1 h2 => ?_, fun h1 h2 => ?_, fun h1 h2 => ?_⟩
    · unfold checkThreshold
      rw [if_pos h1]
    · unfold checkThreshold
      rw [if_neg (by omega), if_pos h1]
    · unfold checkThreshold
      rw [if_neg (by omega), if_neg (by omega), if_pos h1]
    · unfold checkThreshold
      rw [if_neg (by omega), if_neg (by omega), if_neg (by omega)]
  · intro c w p items now
    refine ⟨rfl, fun it hit => ⟨_, rfl, ?_⟩⟩
    exact foldl_insertItem_mem _ items _ it hit

theorem C9_witness : checkThreshold 10000 50001 = some Warning.sizeWarning :=
  (C9_threshold_warnings.2.1 10000 50001).2.1 (by decide) (by decide)

/-- C10: single-entity writes leak into bulk answers: on a valid
table whose fingerprint set knows a query `p` without an `id` key,
`setById` inserts an entry whose only Query Record is `{id: i}`, and
the compatibility rule accepts that record for `p`, so a subsequent
`get p` returns a list containing the freshly written item. -/
theorem C10_setById_leaks_into_bulk :
    ∀ (c : BulkCache) (d : BulkCacheData) (p : QRecord) (i : String)
      (item : Entity) (ttlO : Option Nat) (t₁ t₂ : Nat),
      c.data = some d → t₁ < d.expiresAt → t₂ < d.expiresAt →
      serializeQuery p ∈ d.uniqueQueries →
      (∀ kv ∈ p, kv.1 ≠ "limit" → kv.1 ≠ "cursor" → kv.1 ≠ "id") →
      ∃ rs, ((c.setById i item ttlO t₁).get p t₂).1 = some rs ∧ item ∈ rs := by
  intro c d p i item ttlO t₁ t₂ hd h₁ h₂ hmem hkeys
  have hsb : (c.setById i item ttlO t₁).data =
      some ⟨mapSet d.entries i ⟨i, item, [⟨[("id", Val.str i)], t₁⟩]⟩,
        d.lastUpdated, d.expiresAt, d.uniqueQueries⟩ := by
    simp only [BulkCache.setById, hd]
    rw [if_pos h₁]
  have hget : ((c.setById i item ttlO t₁).get p t₂).1 =
      some ((((mapSet d.entries i
          ⟨i, item, [⟨[("id", Val.str i)], t₁⟩]⟩).map Prod.snd).filter
        (fun e => entryMatchesQuery e p)).map (fun e => e.data)) := by
    simp only [BulkCache.get, hsb]
    rw [if_pos h₂, if_pos hmem]
  refine ⟨_, hget, ?_⟩
  have hcompat :
      entryMatchesQuery (⟨i, item, [⟨[("id", Val.str i)], t₁⟩]⟩ : CacheEntry) p
        = true := by
    simp only [entryMatchesQuery, List.any_cons, List.any_nil, Bool.or_false]
    simp only [paramsCompatible, List.all_eq_true]
    intro kv hkv
    by_cases hpk : pagKey kv.1
    · rw [if_pos hpk]
    · rw [if_neg hpk]
      obtain ⟨hl, hc⟩ := pagKey_eq_false_iff.mp (Bool.not_eq_true _ ▸ hpk)
      have hid := hkeys kv hkv hl hc
      rw [lookupRec_cons, if_neg (show ¬"id" = kv.1 from fun h => hid h.symm)]
      rfl
  have hfil : (⟨i, item, [⟨[("id", Val.str i)], t₁⟩]⟩ : CacheEntry) ∈
      ((mapSet d.entries i ⟨i, item, [⟨[("id", Val.str i)], t₁⟩]⟩).map
        Prod.snd).filter (fun e => entryMatchesQuery e p) :=
    List.mem_filter.mpr
      ⟨List.mem_map_of_mem Prod.snd (mem_mapSet_self _ _ _), hcompat⟩
  exact List.mem_map_of_mem (fun e => e.data) hfil

/-- A valid table that already knows the fingerprint of
`{status:"active"}`. -/
def demoTableF : BulkCacheData :=
  ⟨[], 0, 5, [serializeQuery [("status", Val.str "active")]]⟩

/-- A cache holding `demoTableF`. -/
def demoCacheF : BulkCache := ⟨"items", 7200, 10000, some demoTableF, 0, 0⟩

theorem C10_witness :
    ∃ rs, ((demoCacheF.setById "i9" entityI1 none 0).get
        [("status", Val.str "active")] 1).1 = some rs ∧ entityI1 ∈ rs :=
  C10_setById_leaks_into_bulk demoCacheF demoTableF _ "i9" entityI1 none 0 1
    rfl (by decide) (by decide) (by decide) (by decide)

/-! ### C2: wildcard invalidation -/

theorem isWildcard_append (ty : String) : isWildcard (ty ++ ":*") = true := by
  simp [isWildcard]

theorem wildcardBase_append (ty : String) : wildcardBase (ty ++ ":*") = ty := by
  simp [wildcardBase]

/-- A fresh manager with caching enabled. -/
def demoManager : CacheManager := ⟨[], ⟨true, 10000, [("items", 7200)]⟩⟩

/-- The manager after populating the items bulk table. -/
def demoManagerPopulated : CacheManager :=
  demoManager.set "items" [("status", Val.str "active")] [entityI1] 0

/-- C2 counterexample: invalidating the wildcard key `"items:*"` does
not leave the bulk table keyed `"items"` unchanged — it clears it. -/
theorem C2_counterexample :
    ¬(tableOf (demoManagerPopulated.invalidate ["items:*"]) "items" =
        tableOf demoManagerPopulated "items") := by decide

/-- C2 (amended): `invalidate` with the wildcard key `"X:*"` clears
exactly the same per-type cache as `invalidate` with the bare key
`"X"` — there is no separately keyed single-entity table — and that
table is gone afterwards. -/
theorem C2_amended_wildcard_equals_bare :
    ∀ (m : CacheManager) (ty : String), isWildcard ty = false →
      m.invalidate [ty ++ ":*"] = m.invalidate [ty]
      ∧ tableOf (m.invalidate [ty]) ty = none := by
  intro m ty hty
  have hbare : m.invalidate [ty] = m.invalidateOne ty := by
    simp only [CacheManager.invalidate, List.foldl_cons, List.foldl_nil]
    rw [if_neg (by simp [hty])]
  constructor
  · rw [hbare]
    simp only [CacheManager.invalidate, List.foldl_cons, List.foldl_nil]
    rw [if_pos (isWildcard_append ty), wildcardBase_append]
  · rw [hbare]
    cases hgc : m.getCache ty with
    | mk c m1 =>
      simp only [CacheManager.invalidateOne, hgc, CacheManager.updateCache,
        tableOf, BulkCache.invalidate]
      rw [lookupRec_mapSet_self]
      rfl

theorem C2_witness :
    demoManagerPopulated.invalidate ["items" ++ ":*"] =
        demoManagerPopulated.invalidate ["items"]
      ∧ tableOf (demoManagerPopulated.invalidate ["items"]) "items" = none :=
  C2_amended_wildcard_equals_bare demoManagerPopulated "items" (by decide)

/-! ### Orchestrator lemmas -/

/-- `get` touches only the hit/miss counters, never the table. -/
theorem BulkCache.get_data (c : BulkCache) (p : QRecord) (now : Nat) :
    ((c.get p now).2).data = c.data := by
  cases hd : c.data <;> simp only [BulkCache.get, hd] <;> split_ifs <;> rfl

/-- What `getCache` guarantees: the returned cache is stored under the
type key, its table is the type's current table, and no other key's
binding changes. -/
theorem getCache_spec (m : CacheManager) (type : String) :
    lookupRec ((m.getCache type).2).caches type = some (m.getCache type).1
    ∧ tableOf m type = ((m.getCache type).1).data
    ∧ ∀ t, t ≠ type →
        lookupRec ((m.getCache type).2).caches t = lookupRec m.caches t := by
  unfold CacheManager.getCache
  cases hl : lookupRec m.caches type with
  | some c =>
    refine ⟨hl, ?_, fun t ht => rfl⟩
    unfold tableOf
    rw [hl]
    rfl
  | none =>
    refine ⟨?_, ?_, ?_⟩
    · show lookupRec (m.caches ++ [(type, _)]) type = _
      rw [lookupRec_append, hl, lookupRec_cons, if_pos rfl]
    · unfold tableOf
      rw [hl]
      rfl
    · intro t ht
      show lookupRec (m.caches ++ [(type, _)]) t = _
      rw [lookupRec_append]
      cases hlt : lookupRec m.caches t with
      | some c => rfl
      | none =>
        rw [lookupRec_cons, if_neg (show ¬type = t from fun h => ht h.symm)]
        rfl

/-- A `get` through the manager leaves every type's table unchanged
(it only bumps counters and lazily creates empty caches). -/
theorem tableOf_managerGet (m : CacheManager) (type : String) (p : QRecord)
    (now : Nat) (t : String) :
    tableOf ((m.get type p now).2) t = tableOf m t := by
  unfold CacheManager.get
  by_cases he : m.config.enabled = false
  · rw [if_pos he]
  · rw [if_neg he]
    obtain ⟨hstored, htab, hother⟩ := getCache_spec m type
    cases hgc : m.getCache type with
    | mk c m1 =>
      rw [hgc] at hstored htab
      cases hbg : c.get p now with
      | mk r c1 =>
        have hc1 : c1.data = c.data := by
          have h := BulkCache.get_data c p now
          rw [hbg] at h
          exact h
        simp only [hbg]
        show tableOf (m1.updateCache type c1) t = tableOf m t
        unfold CacheManager.updateCache tableOf
        by_cases ht : t = type
        · subst ht
          rw [lookupRec_mapSet_self]
          show c1.data = _
          rw [hc1]
          exact htab.symm
        · rw [lookupRec_mapSet_ne _ _ ht]
          have := hother t ht
          rw [hgc] at this
          rw [this]

/-- The drain loop re-raises the first upstream error unchanged. -/
theorem drainPages_error :
    ∀ (pref : List PageResult) (e : String) (rest : List PageResult)
      (qp : QRecord) (acc : List Entity) (reqs : List QRecord),
      (∀ r ∈ pref, ∃ d c, r = Except.ok (d, some c) ∧ c ≠ "") →
      (drainPages (pref ++ Except.error e :: rest) qp acc reqs).2 =
        Except.error e
  | [], _, _, _, _, _, _ => rfl
  | r :: pref, e, rest, qp, acc, reqs, hok => by
    obtain ⟨dta, cur, hr, hcur⟩ := hok r (List.mem_cons_self _ _)
    subst hr
    simp only [List.cons_append, drainPages]
    rw [if_neg hcur]
    exact drainPages_error pref e rest _ _ _
      (fun x hx => hok x (List.mem_cons_of_mem _ hx))

/-- The request trace the spec describes: the first request is
`{limit:100, ...params}`, each later one re-assigns `cursor` to the
previous response's next cursor. -/
def specRequestsAux (req : QRecord) : List String → List QRecord
  | [] => [req]
  | c :: cs => req :: specRequestsAux (mapSet req "cursor" (Val.str c)) cs

/-- The full spec-side request trace for caller params and the
sequence of non-final cursors. -/
def specRequests (params : QRecord) (cursors : List String) : List QRecord :=
  specRequestsAux (spreadRec [("limit", Val.num 100)] params) cursors

/-- Draining a well-formed page sequence (every page but the last
carries a cursor) consumes exactly those pages, issues the
spec-described requests, and returns the concatenation in order. -/
theorem drainPages_ok :
    ∀ (pages : List (List Entity × String)) (lastData : List Entity)
      (qp : QRecord) (acc : List Entity) (reqs : List QRecord),
      (∀ pr ∈ pages, pr.2 ≠ "") →
      drainPages ((pages.map fun pr => Except.ok (pr.1, some pr.2)) ++
          [Except.ok (lastData, none)]) qp acc reqs =
        (reqs ++ specRequestsAux qp (pages.map Prod.snd),
         Except.ok (acc ++ (pages.map Prod.fst).flatten ++ lastData))
  | [], lastData, qp, acc, reqs, _ => by
    simp [drainPages, specRequestsAux]
  | (d₀, c₀) :: pages, lastData, qp, acc, reqs, hne => by
    simp only [List.map_cons, List.cons_append, drainPages, specRequestsAux,
      List.append_eq]
    rw [if_neg (hne (d₀, c₀) (List.mem_cons_self _ _))]
    rw [drainPages_ok pages lastData (mapSet qp "cursor" (Val.str c₀))
      (acc ++ d₀) (reqs ++ [qp])
      (fun pr hpr => hne pr (List.mem_cons_of_mem _ hpr))]
    congr 1
    · simp
    · simp [List.append_assoc]

/-- C7: upstream failures propagate unchanged and leave every cached
table exactly as it was: a throwing page during the pagination drain
means no `set` happens (only counters and lazily created empty caches
can differ — every table is identical), and a throwing upstream
mutation performs no invalidation at all. -/
theorem C7_failure_leaves_cache :
    (∀ (m : CacheManager) (type : String) (params : QRecord)
        (pref rest : List PageResult) (e : String) (nowGet nowSet : Nat),
        (m.get type params nowGet).1 = none →
        (∀ r ∈ pref, ∃ d c, r = Except.ok (d, some c) ∧ c ≠ "") →
        (fetchListWithCache m type params (pref ++ Except.error e :: rest)
            nowGet nowSet).result = Except.error e
        ∧ ∀ t, tableOf (fetchListWithCache m type params
              (pref ++ Except.error e :: rest) nowGet nowSet).manager t
            = tableOf m t)
    ∧ (∀ (m : CacheManager) (op : String) (e : String),
        mutate m op (Except.error e) = (Except.error e, m)) := by
  constructor
  · intro m type params pref rest e nowGet nowSet hmiss hok
    have hdp := drainPages_error pref e rest
      (spreadRec [("limit", Val.num 100)] params) [] [] hok
    have hbody : fetchListWithCache m type params
        (pref ++ Except.error e :: rest) nowGet nowSet =
        { result := Except.error e, manager := (m.get type params nowGet).2,
          requests := (drainPages (pref ++ Except.error e :: rest)
            (spreadRec [("limit", Val.num 100)] params) [] []).1 } := by
      unfold fetchListWithCache
      cases hmg : m.get type params nowGet with
      | mk cached m1 =>
        have hc : cached = none := by
          rw [hmg] at hmiss
          exact hmiss
        subst hc
        simp only
        cases hdrain : drainPages (pref ++ Except.error e :: rest)
            (spreadRec [("limit", Val.num 100)] params) [] [] with
        | mk reqs result =>
          have hres : result = Except.error e := by
            rw [hdrain] at hdp
            exact hdp
          subst hres
          rfl
    rw [hbody]
    exact ⟨rfl, fun t => tableOf_managerGet m type params nowGet t⟩
  · intro m op e
    rfl

theorem C7_witness :
    (fetchListWithCache demoManager "items" []
        ([] ++ Except.error "boom" :: []) 0 0).result = Except.error "boom"
    ∧ ∀ t, tableOf (fetchListWithCache demoManager "items" []
          ([] ++ Except.error "boom" :: []) 0 0).manager t
        = tableOf demoManager t :=
  (C7_failure_leaves_cache.1 demoManager "items" [] [] [] "boom" 0 0
    (by decide) (fun r hr => absurd hr (List.not_mem_nil r)))

/-- C8: on a miss the orchestrator drains the upstream with an
advancing cursor — the first request is `{limit:100, ...params}`,
each later request carries the previous response's `next_cursor`, and
the drain stops exactly at the first page whose cursor is null — then
stores the in-order concatenation of all pages under the caller's
original params and returns it. -/
theorem C8_pagination_drain :
    ∀ (m : CacheManager) (type : String) (params : QRecord)
      (pages : List (List Entity × String)) (lastData : List Entity)
      (nowGet nowSet : Nat),
      (m.get type params nowGet).1 = none →
      (∀ pr ∈ pages, pr.2 ≠ "") →
      fetchListWithCache m type params
          ((pages.map fun pr => Except.ok (pr.1, some pr.2)) ++
            [Except.ok (lastData, none)]) nowGet nowSet =
        { result := Except.ok ((pages.map Prod.fst).flatten ++ lastData),
          manager := ((m.get type params nowGet).2).set type params
            ((pages.map Prod.fst).flatten ++ lastData) nowSet,
          requests := specRequests params (pages.map Prod.snd) } := by
  intro m type params pages lastData nowGet nowSet hmiss hne
  unfold fetchListWithCache
  cases hmg : m.get type params nowGet with
  | mk cached m1 =>
    have hc : cached = none := by
      rw [hmg] at hmiss
      exact hmiss
    subst hc
    simp only
    rw [drainPages_ok pages lastData (spreadRec [("limit", Val.num 100)] params)
      [] [] hne]
    simp only [List.nil_append]
    rfl

theorem C8_witness :
    fetchListWithCache demoManager "items" []
        (([([entityA], "c1")].map fun pr => Except.ok (pr.1, some pr.2)) ++
          [Except.ok ([entityB], none)]) 0 0 =
      { result := Except.ok (([([entityA], "c1")].map Prod.fst).flatten ++
          [entityB]),
        manager := ((demoManager.get "items" [] 0).2).set "items" []
          (([([entityA], "c1")].map Prod.fst).flatten ++ [entityB]) 0,
        requests := specRequests [] ([([entityA], "c1")].map Prod.snd) } :=
  C8_pagination_drain demoManager "items" [] [([entityA], "c1")] [entityB] 0 0
    (by decide) (by decide)

end ConsignCache
